import Mathlib

/-!
# Verification of the hackpng PNG chunk library

A shallow embedding of the Rust sources `src/chunk_type.rs`, `src/chunk.rs`
and the `Png` container (declared as `pub mod png` in `src/lib.rs`; its
file is not present, so it is modelled from the specification, see the
`Png` definitions below).

Bytes are modelled as `Nat` (Rust `u8` values are `< 256`; theorems that
need this carry it as a well-formedness hypothesis).  Rust panics
(out-of-range `Vec::drain`, `unwrap` on `Err`) are modelled by the
`ParseResult.crash` constructor, typed `Err` returns by
`ParseResult.err`.
-/

set_option maxRecDepth 100000

namespace Hackpng

/-- `u8::is_ascii_alphabetic`: `b` is an ASCII letter (A-Z or a-z). -/
def isAsciiAlphabetic (b : Nat) : Bool :=
  (65 ≤ b && b ≤ 90) || (97 ≤ b && b ≤ 122)

/-- `u32::to_be_bytes`: the four big-endian bytes of a 32-bit value. -/
def u32ToBeBytes (n : Nat) : List Nat :=
  [n / 2 ^ 24 % 256, n / 2 ^ 16 % 256, n / 2 ^ 8 % 256, n % 256]

/-- `u32::from_be_bytes`: recombine four big-endian bytes. -/
def u32FromBeBytes (l : List Nat) : Nat :=
  l.getD 0 0 * 2 ^ 24 + l.getD 1 0 * 2 ^ 16 + l.getD 2 0 * 2 ^ 8 + l.getD 3 0

/-- The bit-reversed CRC-32 polynomial used by PNG (and `crc32fast`). -/
def crcPoly : Nat := 0xEDB88320

/-- One bit step of the CRC-32 algorithm: shift right, and xor the
polynomial in when the bit shifted out was set. -/
def crcBit (c : Nat) : Nat :=
  if c % 2 = 1 then c / 2 ^^^ crcPoly else c / 2

/-- One byte step: xor the byte into the low bits, then do 8 bit steps. -/
def crcByte (c b : Nat) : Nat :=
  crcBit^[8] (c ^^^ b)

/-- The running CRC-32 state after absorbing `m`, starting from all-ones. -/
def crcRaw (m : List Nat) : Nat :=
  m.foldl crcByte 0xFFFFFFFF

/-- `crc32fast::hash`: CRC-32 (ISO 3309, the PNG/zlib variant) of a byte
sequence: all-ones initial state, per-byte updates, final complement. -/
def crc32 (m : List Nat) : Nat :=
  crcRaw m ^^^ 0xFFFFFFFF

/-- `ChunkType` from `src/chunk_type.rs`: the `bytes: [u8; 4]` field,
modelled as four byte fields. -/
structure ChunkType where
  b0 : Nat
  b1 : Nat
  b2 : Nat
  b3 : Nat
deriving DecidableEq, Repr

/-- `ChunkType::bytes`: the 4 bytes of the type code, as a list. -/
def ChunkType.bytes (t : ChunkType) : List Nat :=
  [t.b0, t.b1, t.b2, t.b3]

/-- `<[u8; 4]>::try_into` result used by the source: build a `ChunkType`
from the first four list entries (the callers establish length 4). -/
def chunkTypeFromBytes (l : List Nat) : ChunkType :=
  ⟨l.getD 0 0, l.getD 1 0, l.getD 2 0, l.getD 3 0⟩

/-- `ChunkType::is_bit5_zero`: bit 5 (value 32) of the byte is clear. -/
def ChunkType.is_bit5_zero (byte : Nat) : Bool :=
  byte &&& (1 <<< 5) == 0

/-- `ChunkType::is_critical`: bit 5 of byte 0 is clear. -/
def ChunkType.is_critical (t : ChunkType) : Bool :=
  ChunkType.is_bit5_zero t.b0

/-- `ChunkType::is_public`: bit 5 of byte 1 is clear. -/
def ChunkType.is_public (t : ChunkType) : Bool :=
  ChunkType.is_bit5_zero t.b1

/-- `ChunkType::is_reserved_bit_valid`: bit 5 of byte 2 is clear. -/
def ChunkType.is_reserved_bit_valid (t : ChunkType) : Bool :=
  ChunkType.is_bit5_zero t.b2

/-- `ChunkType::is_safe_to_copy`: bit 5 of byte 3 is set. -/
def ChunkType.is_safe_to_copy (t : ChunkType) : Bool :=
  ! ChunkType.is_bit5_zero t.b3

/-- `ChunkType::is_valid`: all 4 bytes ASCII alphabetic and the reserved
bit is valid. -/
def ChunkType.is_valid (t : ChunkType) : Bool :=
  t.bytes.all isAsciiAlphabetic && t.is_reserved_bit_valid

/-- `ChunkTypeError` from `src/chunk_type.rs`. -/
inductive ChunkTypeError where
  | UnexpectedLength (n : Nat)
  | InvalidCharacter
deriving DecidableEq, Repr

/-- `ChunkType::from_str`, acting on the UTF-8 bytes of the input string
(`s.as_bytes()`): reject when not exactly 4 bytes, reject when a byte is
not an ASCII letter, otherwise store the 4 bytes. -/
def ChunkType.from_str (s : List Nat) : Except ChunkTypeError ChunkType :=
  if s.length ≠ 4 then
    .error (.UnexpectedLength s.length)
  else if ! s.all isAsciiAlphabetic then
    .error .InvalidCharacter
  else
    .ok (chunkTypeFromBytes s)

/-- `Chunk` from `src/chunk.rs`: a chunk type and the data payload. -/
structure Chunk where
  chunk_type : ChunkType
  data : List Nat
deriving DecidableEq, Repr

/-- `ChunkError` from `src/chunk.rs`. -/
inductive ChunkError where
  | StringConvertionFailure
  | CRCMismatch
  | InvalidNumberOfBytes
deriving DecidableEq, Repr

/-- `Chunk::length`: the number of data bytes. -/
def Chunk.length (c : Chunk) : Nat :=
  c.data.length

/-- `Chunk::crc`: CRC-32 over the 4 type bytes followed by the data. -/
def Chunk.crc (c : Chunk) : Nat :=
  crc32 (c.chunk_type.bytes ++ c.data)

/-- `Chunk::as_bytes`: big-endian length, type bytes, data, big-endian
CRC. -/
def Chunk.as_bytes (c : Chunk) : List Nat :=
  u32ToBeBytes c.length ++ c.chunk_type.bytes ++ c.data ++ u32ToBeBytes c.crc

/-- Result of `Chunk::try_from`: an `Ok` chunk, a typed error, or a Rust
panic (`crash`, raised by an out-of-range `Vec::drain`). -/
inductive ParseResult where
  | ok (c : Chunk)
  | err (e : ChunkError)
  | crash
deriving DecidableEq, Repr

/-- `Chunk::try_from (&[u8])` from `src/chunk.rs`: drain 4 length bytes,
4 type bytes, `length` data bytes and 4 CRC bytes, then compare the
recomputed CRC with the stored one.  Each `drain` panics (`crash`) when
fewer bytes remain than it asks for; trailing bytes are ignored. -/
def Chunk.try_from (value : List Nat) : ParseResult :=
  if value.length < 4 then .crash
  else
    let dataLength := u32FromBeBytes (value.take 4)
    let rest := value.drop 4
    if rest.length < 4 then .crash
    else
      let t := chunkTypeFromBytes (rest.take 4)
      let rest2 := rest.drop 4
      if rest2.length < dataLength then .crash
      else
        let data := rest2.take dataLength
        let rest3 := rest2.drop dataLength
        if rest3.length < 4 then .crash
        else
          let crcStored := u32FromBeBytes (rest3.take 4)
          let chunk : Chunk := ⟨t, data⟩
          if chunk.crc = crcStored then .ok chunk
          else .err ChunkError.CRCMismatch

/-- UTF-8 validity of a byte sequence, as checked by Rust's
`String::from_utf8` (the standard table: 1-byte `00..7F`; 2-byte lead
`C2..DF`; 3-byte leads `E0`, `E1..EC`, `ED`, `EE..EF` with their
continuation ranges; 4-byte leads `F0`, `F1..F3`, `F4`). -/
def validUtf8 : List Nat → Bool
  | [] => true
  | b :: rest =>
    if b ≤ 0x7F then validUtf8 rest
    else if 0xC2 ≤ b && b ≤ 0xDF then
      match rest with
      | c1 :: rest1 => (0x80 ≤ c1 && c1 ≤ 0xBF) && validUtf8 rest1
      | [] => false
    else if b = 0xE0 then
      match rest with
      | c1 :: c2 :: rest2 =>
        (0xA0 ≤ c1 && c1 ≤ 0xBF) && (0x80 ≤ c2 && c2 ≤ 0xBF) && validUtf8 rest2
      | _ => false
    else if (0xE1 ≤ b && b ≤ 0xEC) || b = 0xEE || b = 0xEF then
      match rest with
      | c1 :: c2 :: rest2 =>
        (0x80 ≤ c1 && c1 ≤ 0xBF) && (0x80 ≤ c2 && c2 ≤ 0xBF) && validUtf8 rest2
      | _ => false
    else if b = 0xED then
      match rest with
      | c1 :: c2 :: rest2 =>
        (0x80 ≤ c1 && c1 ≤ 0x9F) && (0x80 ≤ c2 && c2 ≤ 0xBF) && validUtf8 rest2
      | _ => false
    else if b = 0xF0 then
      match rest with
      | c1 :: c2 :: c3 :: rest3 =>
        (0x90 ≤ c1 && c1 ≤ 0xBF) && (0x80 ≤ c2 && c2 ≤ 0xBF) &&
          (0x80 ≤ c3 && c3 ≤ 0xBF) && validUtf8 rest3
      | _ => false
    else if 0xF1 ≤ b && b ≤ 0xF3 then
      match rest with
      | c1 :: c2 :: c3 :: rest3 =>
        (0x80 ≤ c1 && c1 ≤ 0xBF) && (0x80 ≤ c2 && c2 ≤ 0xBF) &&
          (0x80 ≤ c3 && c3 ≤ 0xBF) && validUtf8 rest3
      | _ => false
    else if b = 0xF4 then
      match rest with
      | c1 :: c2 :: c3 :: rest3 =>
        (0x80 ≤ c1 && c1 ≤ 0x8F) && (0x80 ≤ c2 && c2 ≤ 0xBF) &&
          (0x80 ≤ c3 && c3 ≤ 0xBF) && validUtf8 rest3
      | _ => false
    else false

/-- `Chunk::data_as_string`: the data bytes when they are valid UTF-8
(the decoded string is represented by its bytes), else a typed error. -/
def Chunk.data_as_string (c : Chunk) : Except ChunkError (List Nat) :=
  if validUtf8 c.data then .ok c.data else .error .StringConvertionFailure

/-- `impl Display for Chunk`: `data_as_string().unwrap()`.  The `unwrap`
panics on the error branch, modelled as `none`. -/
def Chunk.display (c : Chunk) : Option (List Nat) :=
  match c.data_as_string with
  | .ok s => some s
  | .error _ => none

/-- Well-formedness a `Chunk` enjoys in Rust by typing: data bytes and
type bytes are `u8` values, and the data fits the `u32` length field. -/
def Chunk.wfb (c : Chunk) : Bool :=
  decide (c.data.length < 2 ^ 32) && c.data.all (· < 256) &&
    c.chunk_type.bytes.all (· < 256)

/-- Flip bit `j` of the byte at index `i` of a byte sequence. -/
def flipBit (l : List Nat) (i j : Nat) : List Nat :=
  l.set i (l.getD i 0 ^^^ 2 ^ j)

/-- The canonical 8-byte PNG signature. -/
def pngSignature : List Nat := [137, 80, 78, 71, 13, 10, 26, 10]

/-- `Png` from the missing `src/png.rs`.  Modelled from the spec: "an
ordered sequence of Chunk" behind the fixed 8-byte signature (§3). -/
structure Png where
  chunks : List Chunk
deriving DecidableEq, Repr

/-- Modelled from the spec: the chunk-parsing loop of
`PngContainer::parse` (§4.3) — "repeatedly parses chunks via
`Chunk::parse` from the remaining bytes, advancing past each consumed
chunk (`12 + data length` bytes per chunk) until the buffer is
exhausted"; any chunk-level failure propagates (`none`). -/
def Png.parseChunks (bytes : List Nat) : Option (List Chunk) :=
  if h : bytes = [] then some []
  else
    match Chunk.try_from bytes with
    | ParseResult.ok c =>
      (Png.parseChunks (bytes.drop (12 + c.data.length))).map (fun cs => c :: cs)
    | _ => none
termination_by bytes.length
decreasing_by
  simp only [List.length_drop]
  have : 0 < bytes.length := List.length_pos.mpr h
  omega

/-- Modelled from the spec: `PngContainer::parse` (§4.3) — "fails if the
first 8 bytes don't equal the PNG signature; otherwise repeatedly parses
chunks ... until the buffer is exhausted". -/
def Png.parse (bytes : List Nat) : Option Png :=
  if bytes.take 8 = pngSignature then
    (Png.parseChunks (bytes.drop 8)).map Png.mk
  else none

/-- Modelled from the spec: `PngContainer::toBytes` (§4.3) —
"concatenates the 8-byte signature with each chunk's `toBytes` output in
sequence order". -/
def Png.toBytes (p : Png) : List Nat :=
  pngSignature ++ (p.chunks.map Chunk.as_bytes).flatten

/-- The `"RuSt"` chunk type of the repository's tests. -/
def rustType : ChunkType := ⟨82, 117, 83, 116⟩

/-- The ASCII bytes of a string (faithful to `str::as_bytes` for the
ASCII-only literals used in the tests). -/
def strBytes (s : String) : List Nat :=
  s.data.map Char.toNat

/-- The test payload from `src/chunk.rs`. -/
def secretMessageBytes : List Nat :=
  strBytes "This is where your secret message will be!"

/-! ## Helper lemmas: 32-bit big-endian encoding -/

theorem length_u32ToBeBytes (n : Nat) : (u32ToBeBytes n).length = 4 := rfl

theorem getD_cons_list (a b c d e : Nat) :
    [a, b, c, d].getD 0 e = a ∧ [a, b, c, d].getD 1 e = b ∧
      [a, b, c, d].getD 2 e = c ∧ [a, b, c, d].getD 3 e = d := by
  refine ⟨rfl, rfl, rfl, rfl⟩

theorem u32FromBeBytes_cons (a b c d : Nat) :
    u32FromBeBytes [a, b, c, d] = a * 2 ^ 24 + b * 2 ^ 16 + c * 2 ^ 8 + d := rfl

theorem u32FromBeBytes_u32ToBeBytes {n : Nat} (h : n < 2 ^ 32) :
    u32FromBeBytes (u32ToBeBytes n) = n := by
  rw [u32ToBeBytes, u32FromBeBytes_cons]
  omega

theorem getD_lt_of_forall_lt {l : List Nat} {n b : Nat}
    (h : ∀ x ∈ l, x < b) (hb : 0 < b) : l.getD n 0 < b := by
  rcases hn : l[n]? with _ | x
  · simpa [List.getD_eq_getElem?_getD, hn] using hb
  · have hx : x ∈ l := List.getElem?_mem hn
    simpa [List.getD_eq_getElem?_getD, hn] using h x hx

theorem u32FromBeBytes_lt {l : List Nat} (h : ∀ x ∈ l, x < 256) :
    u32FromBeBytes l < 2 ^ 32 := by
  have h0 := getD_lt_of_forall_lt (n := 0) h (by norm_num)
  have h1 := getD_lt_of_forall_lt (n := 1) h (by norm_num)
  have h2 := getD_lt_of_forall_lt (n := 2) h (by norm_num)
  have h3 := getD_lt_of_forall_lt (n := 3) h (by norm_num)
  simp only [u32FromBeBytes]
  omega

theorem u32ToBeBytes_u32FromBeBytes {l : List Nat} (hlen : l.length = 4)
    (h : ∀ x ∈ l, x < 256) : u32ToBeBytes (u32FromBeBytes l) = l := by
  rcases l with _ | ⟨a, _ | ⟨b, _ | ⟨c, _ | ⟨d, _ | ⟨e, l⟩⟩⟩⟩⟩ <;>
    simp_all [List.length]
  have ha : a < 256 := h.1
  have hb : b < 256 := h.2.1
  have hc : c < 256 := h.2.2.1
  have hd : d < 256 := h.2.2.2
  rw [u32FromBeBytes_cons, u32ToBeBytes]
  refine List.cons_eq_cons.mpr ⟨by omega, ?_⟩
  refine List.cons_eq_cons.mpr ⟨by omega, ?_⟩
  refine List.cons_eq_cons.mpr ⟨by omega, ?_⟩
  refine List.cons_eq_cons.mpr ⟨by omega, rfl⟩

theorem mem_u32ToBeBytes_lt {n x : Nat} (h : x ∈ u32ToBeBytes n) : x < 256 := by
  simp only [u32ToBeBytes, List.mem_cons, List.not_mem_nil, or_false] at h
  rcases h with h | h | h | h <;> subst h <;> exact Nat.mod_lt _ (by norm_num)

/-! ## Helper lemmas: xor-linearity and range of the CRC-32 steps -/

theorem div_two_xor (x y : Nat) : (x ^^^ y) / 2 = x / 2 ^^^ y / 2 := by
  apply Nat.eq_of_testBit_eq
  intro i
  simp [Nat.testBit_div_two, Nat.testBit_xor]

theorem mod_two_xor (x y : Nat) : (x ^^^ y) % 2 = x % 2 ^^^ y % 2 := by
  rw [← Nat.and_one_is_mod, ← Nat.and_one_is_mod, ← Nat.and_one_is_mod,
    Nat.and_xor_distrib_right]

theorem nat_xor_left_comm (a b c : Nat) : a ^^^ (b ^^^ c) = b ^^^ (a ^^^ c) := by
  rw [← Nat.xor_assoc, Nat.xor_comm a b, Nat.xor_assoc]

theorem nat_xor_xor_self (a b : Nat) : a ^^^ (a ^^^ b) = b := by
  rw [← Nat.xor_assoc, Nat.xor_self, Nat.zero_xor]

theorem crcBit_xor (x y : Nat) : crcBit (x ^^^ y) = crcBit x ^^^ crcBit y := by
  simp only [crcBit, mod_two_xor, div_two_xor]
  rcases Nat.mod_two_eq_zero_or_one x with hx | hx <;>
    rcases Nat.mod_two_eq_zero_or_one y with hy | hy <;>
      simp [hx, hy, Nat.xor_assoc, Nat.xor_comm, nat_xor_left_comm,
        nat_xor_xor_self]

theorem crcBit_lt {x : Nat} (h : x < 2 ^ 32) : crcBit x < 2 ^ 32 := by
  have hdiv : x / 2 < 2 ^ 32 := Nat.lt_of_le_of_lt (Nat.div_le_self x 2) h
  simp only [crcBit]
  split
  · exact Nat.xor_lt_two_pow hdiv (by norm_num [crcPoly])
  · exact hdiv

theorem crcBit_pos {x : Nat} (h0 : 0 < x) (h : x < 2 ^ 32) : 0 < crcBit x := by
  simp only [crcBit]
  split
  · rename_i hodd
    rw [Nat.pos_iff_ne_zero]
    intro hz
    have htb : (x / 2 ^^^ crcPoly).testBit 31 = false := by
      rw [hz]; exact Nat.zero_testBit 31
    have hx2 : x / 2 < 2 ^ 31 := by omega
    have hp : crcPoly.testBit 31 = true := by decide
    rw [Nat.testBit_xor, Nat.testBit_eq_false_of_lt hx2, hp] at htb
    simp at htb
  · rename_i heven
    have : x % 2 = 0 := by omega
    have hx2 : 2 ≤ x := by omega
    omega

theorem crcBit_iter_xor (n x y : Nat) :
    crcBit^[n] (x ^^^ y) = crcBit^[n] x ^^^ crcBit^[n] y := by
  induction n generalizing x y with
  | zero => simp
  | succ n ih =>
    rw [Function.iterate_succ_apply, Function.iterate_succ_apply,
      Function.iterate_succ_apply, crcBit_xor, ih]

theorem crcBit_iter_lt {n x : Nat} (h : x < 2 ^ 32) : crcBit^[n] x < 2 ^ 32 := by
  induction n generalizing x with
  | zero => simpa
  | succ n ih => rw [Function.iterate_succ_apply]; exact ih (crcBit_lt h)

theorem crcBit_iter_pos {n x : Nat} (h0 : 0 < x) (h : x < 2 ^ 32) :
    0 < crcBit^[n] x := by
  induction n generalizing x with
  | zero => simpa
  | succ n ih =>
    rw [Function.iterate_succ_apply]
    exact ih (crcBit_pos h0 h) (crcBit_lt h)

theorem crcByte_xor_left (c d b : Nat) :
    crcByte (c ^^^ d) b = crcByte c b ^^^ crcBit^[8] d := by
  have : c ^^^ d ^^^ b = (c ^^^ b) ^^^ d := by
    rw [Nat.xor_assoc, Nat.xor_assoc, Nat.xor_comm d b]
  rw [crcByte, this, crcBit_iter_xor, crcByte]

theorem crcByte_xor_right (c b d : Nat) :
    crcByte c (b ^^^ d) = crcByte c b ^^^ crcBit^[8] d := by
  have : c ^^^ (b ^^^ d) = (c ^^^ b) ^^^ d := by rw [Nat.xor_assoc]
  rw [crcByte, this, crcBit_iter_xor, crcByte]

theorem foldl_crcByte_xor (s : List Nat) (z d : Nat) :
    s.foldl crcByte (z ^^^ d) = s.foldl crcByte z ^^^ crcBit^[8 * s.length] d := by
  induction s generalizing z d with
  | nil => simp
  | cons a s ih =>
    rw [List.foldl_cons, List.foldl_cons, crcByte_xor_left, ih,
      ← Function.iterate_add_apply]
    have : 8 * s.length + 8 = 8 * (a :: s).length := by
      simp [List.length_cons]; ring
    rw [this]

theorem xor_left_injective {a b c : Nat} (h : a ^^^ b = a ^^^ c) : b = c := by
  have := congrArg (fun t => a ^^^ t) h
  simpa [← Nat.xor_assoc] using this

theorem xor_ne_self {a d : Nat} (hd : d ≠ 0) : a ^^^ d ≠ a := by
  intro h
  apply hd
  have : a ^^^ d = a ^^^ 0 := by simpa using h
  exact xor_left_injective this

/-! ## CRC-32 sensitivity to a single-byte xor difference -/

theorem crcRaw_append_cons (p s : List Nat) (y : Nat) :
    crcRaw (p ++ y :: s) = s.foldl crcByte (crcByte (crcRaw p) y) := by
  simp [crcRaw, List.foldl_append]

theorem crcRaw_flip (p s : List Nat) (x d : Nat) :
    crcRaw (p ++ (x ^^^ d) :: s) =
      crcRaw (p ++ x :: s) ^^^ crcBit^[8 * (s.length + 1)] d := by
  rw [crcRaw_append_cons, crcRaw_append_cons, crcByte_xor_right,
    foldl_crcByte_xor, ← Function.iterate_add_apply]
  have : 8 * s.length + 8 = 8 * (s.length + 1) := by ring
  rw [this]

theorem crc32_flip_ne (p s : List Nat) (x d : Nat) (hd0 : 0 < d)
    (hd : d < 2 ^ 32) : crc32 (p ++ (x ^^^ d) :: s) ≠ crc32 (p ++ x :: s) := by
  have hiter : 0 < crcBit^[8 * (s.length + 1)] d := crcBit_iter_pos hd0 hd
  simp only [crc32]
  intro h
  have hraw : crcRaw (p ++ (x ^^^ d) :: s) = crcRaw (p ++ x :: s) := by
    have h1 : crcRaw (p ++ (x ^^^ d) :: s) ^^^ 0xFFFFFFFF ^^^ 0xFFFFFFFF
        = crcRaw (p ++ x :: s) ^^^ 0xFFFFFFFF ^^^ 0xFFFFFFFF := by rw [h]
    simpa [Nat.xor_assoc] using h1
  rw [crcRaw_flip] at hraw
  exact xor_ne_self (by omega) hraw

theorem crcRaw_lt {m : List Nat} (h : ∀ x ∈ m, x < 256) : crcRaw m < 2 ^ 32 := by
  simp only [crcRaw]
  have hgen : ∀ (l : List Nat) (z : Nat), (∀ x ∈ l, x < 256) → z < 2 ^ 32 →
      l.foldl crcByte z < 2 ^ 32 := by
    intro l
    induction l with
    | nil => intro z _ hz; simpa
    | cons a l ih =>
      intro z hl hz
      rw [List.foldl_cons]
      have ha : a < 2 ^ 32 :=
        Nat.lt_trans (hl a (List.mem_cons_self a l)) (by norm_num)
      exact ih (crcByte z a) (fun x hx => hl x (List.mem_cons_of_mem a hx))
        (crcBit_iter_lt (Nat.xor_lt_two_pow hz ha))
  exact hgen m 0xFFFFFFFF h (by norm_num)

theorem crc32_lt {m : List Nat} (h : ∀ x ∈ m, x < 256) : crc32 m < 2 ^ 32 :=
  Nat.xor_lt_two_pow (crcRaw_lt h) (by norm_num)

/-! ## Helper lemmas: list surgery for bit flips -/

theorem list_surgery {l : List Nat} {i : Nat} (h : i < l.length) :
    l = l.take i ++ l.getD i 0 :: l.drop (i + 1) := by
  have hg : l.getD i 0 = l[i] := by
    simp [List.getD_eq_getElem?_getD, List.getElem?_eq_getElem h]
  rw [hg, List.getElem_cons_drop l i h, List.take_append_drop]

theorem flipBit_surgery {l : List Nat} {i : Nat} (j : Nat) (h : i < l.length) :
    flipBit l i j = l.take i ++ (l.getD i 0 ^^^ 2 ^ j) :: l.drop (i + 1) := by
  rw [flipBit, List.set_eq_take_cons_drop _ h]

theorem flipBit_append_right {a b : List Nat} {i : Nat} (j : Nat)
    (h : a.length ≤ i) :
    flipBit (a ++ b) i j = a ++ flipBit b (i - a.length) j := by
  rw [flipBit, flipBit, List.set_append_right _ _ h]
  congr 2
  simp [List.getD_eq_getElem?_getD, List.getElem?_append_right h]

theorem flipBit_append_left {a b : List Nat} {i : Nat} (j : Nat)
    (h : i < a.length) :
    flipBit (a ++ b) i j = flipBit a i j ++ b := by
  rw [flipBit, flipBit, List.set_append_left _ _ h]
  congr 3
  simp [List.getD_eq_getElem?_getD, List.getElem?_append_left h]

theorem length_flipBit (l : List Nat) (i j : Nat) :
    (flipBit l i j).length = l.length := by
  simp [flipBit]

/-! ## Helper lemmas: the chunk parser on framed buffers -/

theorem chunkTypeFromBytes_bytes (t : ChunkType) :
    chunkTypeFromBytes t.bytes = t := by
  cases t
  rfl

theorem bytes_chunkTypeFromBytes {l : List Nat} (h : l.length = 4) :
    (chunkTypeFromBytes l).bytes = l := by
  rcases l with _ | ⟨a, _ | ⟨b, _ | ⟨c, _ | ⟨d, _ | ⟨e, l⟩⟩⟩⟩⟩ <;>
    simp_all [List.length]
  rfl

theorem length_bytes (t : ChunkType) : t.bytes.length = 4 := rfl

/-- Running `Chunk::try_from` on a buffer laid out as length, 4 type
bytes, data, a 4-byte trailer and arbitrary extra bytes: the parser
reconstructs the framed fields and only the CRC comparison decides the
outcome. -/
theorem try_from_parts (t4 d kb s : List Nat) (ht : t4.length = 4)
    (hkb : kb.length = 4) (hd : d.length < 2 ^ 32) :
    Chunk.try_from (u32ToBeBytes d.length ++ (t4 ++ (d ++ (kb ++ s)))) =
      if (Chunk.mk (chunkTypeFromBytes t4) d).crc = u32FromBeBytes kb
      then ParseResult.ok ⟨chunkTypeFromBytes t4, d⟩
      else ParseResult.err ChunkError.CRCMismatch := by
  have e1 : (u32ToBeBytes d.length ++ (t4 ++ (d ++ (kb ++ s)))).take 4
      = u32ToBeBytes d.length := List.take_left' rfl
  have e2 : (u32ToBeBytes d.length ++ (t4 ++ (d ++ (kb ++ s)))).drop 4
      = t4 ++ (d ++ (kb ++ s)) := List.drop_left' rfl
  have e3 : (t4 ++ (d ++ (kb ++ s))).take 4 = t4 := List.take_left' ht
  have e4 : (t4 ++ (d ++ (kb ++ s))).drop 4 = d ++ (kb ++ s) :=
    List.drop_left' ht
  have e5 : (d ++ (kb ++ s)).take d.length = d := List.take_left' rfl
  have e6 : (d ++ (kb ++ s)).drop d.length = kb ++ s := List.drop_left' rfl
  have e7 : (kb ++ s).take 4 = kb := List.take_left' hkb
  have hlen1 : ¬ (u32ToBeBytes d.length ++ (t4 ++ (d ++ (kb ++ s)))).length < 4 := by
    simp [List.length_append, length_u32ToBeBytes]
  have hlen2 : ¬ (t4 ++ (d ++ (kb ++ s))).length < 4 := by
    simp [List.length_append, ht]
  have hlen3 : ¬ (d ++ (kb ++ s)).length < d.length := by
    simp [List.length_append]
  have hlen4 : ¬ (kb ++ s).length < 4 := by
    simp [List.length_append, hkb]
  rw [Chunk.try_from]
  rw [if_neg hlen1, e1, e2, u32FromBeBytes_u32ToBeBytes hd, if_neg hlen2,
    e3, e4, if_neg hlen3, e5, e6, if_neg hlen4, e7]

/-- `Chunk::as_bytes` followed by extra bytes, reassociated into the
frame shape of `try_from_parts`. -/
theorem as_bytes_append (c : Chunk) (s : List Nat) :
    c.as_bytes ++ s = u32ToBeBytes c.data.length ++
      (c.chunk_type.bytes ++ (c.data ++ (u32ToBeBytes c.crc ++ s))) := by
  simp [Chunk.as_bytes, Chunk.length, List.append_assoc]

theorem wfb_data_length {c : Chunk} (h : c.wfb = true) :
    c.data.length < 2 ^ 32 := by
  simp only [Chunk.wfb, Bool.and_eq_true, decide_eq_true_eq] at h
  exact h.1.1

theorem wfb_bytes_lt {c : Chunk} (h : c.wfb = true) :
    ∀ x ∈ c.chunk_type.bytes ++ c.data, x < 256 := by
  simp only [Chunk.wfb, Bool.and_eq_true, decide_eq_true_eq, List.all_eq_true]
    at h
  intro x hx
  rcases List.mem_append.mp hx with hx | hx
  · simpa using h.2 x hx
  · simpa using h.1.2 x hx

theorem wfb_crc_lt {c : Chunk} (h : c.wfb = true) : c.crc < 2 ^ 32 :=
  crc32_lt (wfb_bytes_lt h)

/-- Core round-trip lemma: parsing the serialization of a well-formed
chunk, with any trailing bytes, returns exactly that chunk. -/
theorem try_from_as_bytes_append (c : Chunk) (s : List Nat)
    (h : c.wfb = true) :
    Chunk.try_from (c.as_bytes ++ s) = ParseResult.ok c := by
  rw [as_bytes_append,
    try_from_parts c.chunk_type.bytes c.data (u32ToBeBytes c.crc) s
      (length_bytes c.chunk_type) (length_u32ToBeBytes c.crc)
      (wfb_data_length h),
    chunkTypeFromBytes_bytes, u32FromBeBytes_u32ToBeBytes (wfb_crc_lt h)]
  simp

/-! ## Helper lemmas: single-bit corruption -/

theorem two_pow_lt_of_lt_eight {j : Nat} (hj : j < 8) : 2 ^ j < 2 ^ 32 := by
  have : 2 ^ j ≤ 2 ^ 7 := Nat.pow_le_pow_right (by norm_num) (by omega)
  omega

/-- Flipping one bit of one byte of a message changes its CRC-32. -/
theorem crc32_flipBit_ne {m : List Nat} {q j : Nat} (hq : q < m.length)
    (hj : j < 8) : crc32 (flipBit m q j) ≠ crc32 m := by
  rw [flipBit_surgery j hq]
  conv_rhs => rw [list_surgery hq]
  exact crc32_flip_ne (m.take q) (m.drop (q + 1)) (m.getD q 0) (2 ^ j)
    (Nat.two_pow_pos j) (two_pow_lt_of_lt_eight hj)

/-- Flipping one bit of one byte of a 4-byte big-endian encoding changes
the decoded value. -/
theorem u32FromBeBytes_flipBit_ne {K q j : Nat} (hq : q < 4) (hj : j < 8)
    (hK : K < 2 ^ 32) :
    u32FromBeBytes (flipBit (u32ToBeBytes K) q j) ≠ K := by
  intro h
  set l := u32ToBeBytes K with hl
  have hlen : l.length = 4 := length_u32ToBeBytes K
  have hmem : ∀ x ∈ flipBit l q j, x < 256 := by
    intro x hx
    rcases List.mem_or_eq_of_mem_set hx with hx | hx
    · exact mem_u32ToBeBytes_lt hx
    · subst hx
      have h1 : l.getD q 0 < 2 ^ 8 :=
        getD_lt_of_forall_lt (fun y hy => mem_u32ToBeBytes_lt hy) (by norm_num)
      have h2 : 2 ^ j ≤ 2 ^ 7 := Nat.pow_le_pow_right (by norm_num) (by omega)
      have h3 : 2 ^ j < 2 ^ 8 := by omega
      have h4 := Nat.xor_lt_two_pow h1 h3
      omega
  have hflen : (flipBit l q j).length = 4 := by rw [length_flipBit, hlen]
  have hback : u32ToBeBytes (u32FromBeBytes (flipBit l q j)) = flipBit l q j :=
    u32ToBeBytes_u32FromBeBytes hflen hmem
  rw [h] at hback
  have heq : l = flipBit l q j := by rw [← hl] at hback; exact hback
  have hqlen : q < l.length := by omega
  have hgd : (flipBit l q j).getD q 0 = l.getD q 0 ^^^ 2 ^ j := by
    simp [flipBit, List.getD_eq_getElem?_getD, List.getElem?_set_self hqlen]
  rw [← heq] at hgd
  exact xor_ne_self (Nat.pos_iff_ne_zero.mp (Nat.two_pow_pos j)) hgd.symm

/-- The CRC recomputed by the parser over a framed region `M` (4 type
bytes then data) is the CRC-32 of `M` itself. -/
theorem rebuilt_crc {M : List Nat} (h : 4 ≤ M.length) :
    (Chunk.mk (chunkTypeFromBytes (M.take 4)) (M.drop 4)).crc = crc32 M := by
  have hlen : (M.take 4).length = 4 := by
    rw [List.length_take]
    omega
  rw [Chunk.crc, bytes_chunkTypeFromBytes hlen]
  simp [List.take_append_drop]

/-- Flipping any single bit at byte positions 4 and beyond (type, data
or CRC field) of a serialized chunk makes `Chunk::try_from` fail with
`CRCMismatch`. -/
theorem try_from_flipBit (c : Chunk) (i j : Nat) (hw : c.wfb = true)
    (hi4 : 4 ≤ i) (hi : i < 12 + c.data.length) (hj : j < 8) :
    Chunk.try_from (flipBit c.as_bytes i j) =
      ParseResult.err ChunkError.CRCMismatch := by
  have hAB : c.as_bytes = u32ToBeBytes c.data.length ++
      ((c.chunk_type.bytes ++ c.data) ++ u32ToBeBytes c.crc) := by
    simp [Chunk.as_bytes, Chunk.length, List.append_assoc]
  have hMlen : (c.chunk_type.bytes ++ c.data).length = 4 + c.data.length := by
    simp [List.length_append, length_bytes]
  have hcrc : c.crc = crc32 (c.chunk_type.bytes ++ c.data) := rfl
  have h4 : (u32ToBeBytes c.data.length).length = 4 :=
    length_u32ToBeBytes c.data.length
  rw [hAB, flipBit_append_right j (by omega), h4]
  by_cases hcase : i - 4 < 4 + c.data.length
  · -- the flip lands in the type or data region
    have hqM : i - 4 < (c.chunk_type.bytes ++ c.data).length := by omega
    rw [flipBit_append_left j hqM]
    have hM'len : (flipBit (c.chunk_type.bytes ++ c.data) (i - 4) j).length
        = 4 + c.data.length := by rw [length_flipBit, hMlen]
    generalize hM' : flipBit (c.chunk_type.bytes ++ c.data) (i - 4) j = M'
      at hM'len
    have hne : crc32 M' ≠ c.crc := by
      rw [hcrc, ← hM']
      exact crc32_flipBit_ne hqM hj
    have hdlen : (M'.drop 4).length = c.data.length := by
      rw [List.length_drop, hM'len]
      omega
    have htlen : (M'.take 4).length = 4 := by
      rw [List.length_take]
      omega
    have hsplit : M' ++ u32ToBeBytes c.crc =
        M'.take 4 ++ (M'.drop 4 ++ (u32ToBeBytes c.crc ++ [])) := by
      rw [List.append_nil, ← List.append_assoc, List.take_append_drop]
    rw [hsplit, show u32ToBeBytes c.data.length
        = u32ToBeBytes (M'.drop 4).length by rw [hdlen],
      try_from_parts (M'.take 4) (M'.drop 4) (u32ToBeBytes c.crc) [] htlen
        (length_u32ToBeBytes c.crc) (by rw [hdlen]; exact wfb_data_length hw),
      rebuilt_crc (by omega), u32FromBeBytes_u32ToBeBytes (wfb_crc_lt hw)]
    rw [if_neg hne]
  · -- the flip lands in the 4-byte CRC field
    rw [flipBit_append_right j (by omega), hMlen]
    have hq' : i - 4 - (4 + c.data.length) < 4 := by omega
    have hne : u32FromBeBytes
        (flipBit (u32ToBeBytes c.crc) (i - 4 - (4 + c.data.length)) j)
          ≠ c.crc :=
      u32FromBeBytes_flipBit_ne hq' hj (wfb_crc_lt hw)
    have hsplit : (c.chunk_type.bytes ++ c.data) ++
        flipBit (u32ToBeBytes c.crc) (i - 4 - (4 + c.data.length)) j =
        c.chunk_type.bytes ++ (c.data ++
          (flipBit (u32ToBeBytes c.crc) (i - 4 - (4 + c.data.length)) j ++ [])) := by
      rw [List.append_nil, List.append_assoc]
    rw [hsplit,
      try_from_parts c.chunk_type.bytes c.data _ [] (length_bytes _)
        (by rw [length_flipBit]; exact length_u32ToBeBytes c.crc)
        (wfb_data_length hw)]
    rw [if_neg]
    intro heq
    rw [chunkTypeFromBytes_bytes] at heq
    exact hne (heq.symm)

/-! ## Helper lemmas: the PNG container -/

theorem length_as_bytes (c : Chunk) : c.as_bytes.length = 12 + c.data.length := by
  simp [Chunk.as_bytes, List.length_append, length_bytes, length_u32ToBeBytes,
    Chunk.length]
  omega

/-- A successfully parsed chunk of a byte buffer is well formed. -/
theorem try_from_ok_wfb {bytes : List Nat} {c : Chunk}
    (hb : ∀ x ∈ bytes, x < 256) (h : Chunk.try_from bytes = ParseResult.ok c) :
    c.wfb = true := by
  simp only [Chunk.try_from] at h
  split_ifs at h with h1 h2 h3 h4 h5
  injection h with h0
  subst h0
  have hdl : u32FromBeBytes (bytes.take 4) < 2 ^ 32 :=
    u32FromBeBytes_lt (fun x hx => hb x (List.mem_of_mem_take hx))
  have htlen : ((bytes.drop 4).take 4).length = 4 := by
    rw [List.length_take]
    omega
  simp only [Chunk.wfb, Bool.and_eq_true, decide_eq_true_eq, List.all_eq_true]
  refine ⟨⟨?_, ?_⟩, ?_⟩
  · have := List.length_take_le (u32FromBeBytes (bytes.take 4))
      ((bytes.drop 4).drop 4)
    omega
  · intro x hx
    have : x ∈ bytes :=
      List.mem_of_mem_drop (List.mem_of_mem_drop (List.mem_of_mem_take hx))
    simpa using hb x this
  · intro x hx
    rw [bytes_chunkTypeFromBytes htlen] at hx
    have : x ∈ bytes := List.mem_of_mem_drop (List.mem_of_mem_take hx)
    simpa using hb x this

/-- Unfolding the parsing loop one step on a successful chunk parse. -/
theorem parseChunks_cons_of_ok {bytes : List Nat} {c : Chunk}
    (hne : bytes ≠ []) (h : Chunk.try_from bytes = ParseResult.ok c) :
    Png.parseChunks bytes =
      (Png.parseChunks (bytes.drop (12 + c.data.length))).map
        (fun cs => c :: cs) := by
  rw [Png.parseChunks, dif_neg hne, h]

/-- Reparsing the concatenated serializations of well-formed chunks
recovers exactly that chunk list. -/
theorem parseChunks_flatten (cs : List Chunk) (h : ∀ c ∈ cs, c.wfb = true) :
    Png.parseChunks (cs.map Chunk.as_bytes).flatten = some cs := by
  induction cs with
  | nil =>
    rw [Png.parseChunks]
    simp
  | cons c cs ih =>
    have hc : c.wfb = true := h c (List.mem_cons_self c cs)
    have hflat : ((c :: cs).map Chunk.as_bytes).flatten
        = c.as_bytes ++ (cs.map Chunk.as_bytes).flatten := by simp
    have hne : c.as_bytes ++ (cs.map Chunk.as_bytes).flatten ≠ [] := by
      intro hnil
      have := congrArg List.length hnil
      rw [List.length_append, length_as_bytes] at this
      simp at this
    have hdrop : (c.as_bytes ++ (cs.map Chunk.as_bytes).flatten).drop
        (12 + c.data.length) = (cs.map Chunk.as_bytes).flatten :=
      List.drop_left' (length_as_bytes c)
    rw [hflat, parseChunks_cons_of_ok hne (try_from_as_bytes_append c _ hc),
      hdrop, ih (fun x hx => h x (List.mem_cons_of_mem c hx))]
    rfl

/-- Chunks extracted by the parsing loop from a byte buffer are all well
formed. -/
theorem parseChunks_wfb_aux : ∀ (n : Nat) (bytes : List Nat) (cs : List Chunk),
    bytes.length ≤ n → (∀ x ∈ bytes, x < 256) →
    Png.parseChunks bytes = some cs → ∀ c ∈ cs, c.wfb = true := by
  intro n
  induction n with
  | zero =>
    intro bytes cs hlen hb h c hc
    have hnil : bytes = [] := List.length_eq_zero.mp (by omega)
    subst hnil
    rw [Png.parseChunks] at h
    simp at h
    subst h
    simp at hc
  | succ n ih =>
    intro bytes cs hlen hb h c hc
    by_cases hnil : bytes = []
    · subst hnil
      rw [Png.parseChunks] at h
      simp at h
      subst h
      simp at hc
    · cases htf : Chunk.try_from bytes with
      | ok c0 =>
        rw [parseChunks_cons_of_ok hnil htf] at h
        cases hrec : Png.parseChunks (bytes.drop (12 + c0.data.length)) with
        | none =>
          rw [hrec] at h
          exact Option.noConfusion h
        | some cs' =>
          rw [hrec] at h
          simp only [Option.map_some', Option.some.injEq] at h
          subst h
          rcases List.mem_cons.mp hc with hc | hc
          · subst hc
            exact try_from_ok_wfb hb htf
          · have hpos : 0 < bytes.length := List.length_pos.mpr hnil
            refine ih (bytes.drop (12 + c0.data.length)) cs' ?_
              (fun x hx => hb x (List.mem_of_mem_drop hx)) hrec c hc
            rw [List.length_drop]
            omega
      | err e =>
        rw [Png.parseChunks, dif_neg hnil, htf] at h
        exact Option.noConfusion h
      | crash =>
        rw [Png.parseChunks, dif_neg hnil, htf] at h
        exact Option.noConfusion h

theorem parseChunks_wfb {bytes : List Nat} {cs : List Chunk}
    (hb : ∀ x ∈ bytes, x < 256) (h : Png.parseChunks bytes = some cs) :
    ∀ c ∈ cs, c.wfb = true :=
  parseChunks_wfb_aux bytes.length bytes cs (Nat.le_refl _) hb h

/-! ## Demonstration values used by witnesses -/

/-- A small concrete chunk for witnesses. -/
def demoChunk : Chunk := ⟨rustType, [7]⟩

/-- A one-chunk PNG container for witnesses. -/
def demoPng : Png := ⟨[demoChunk]⟩

/-! ## Claims -/

/-- C1: the claim says `Chunk::try_from` returns a typed failure rather
than panicking when the buffer is shorter than the full `12 + L` chunk.
The code panics instead: on the buffer below (declared length 5, but no
data and no CRC bytes present) `bytes.drain(0..5)` goes out of range and
the process aborts, modelled by `ParseResult.crash`. -/
theorem claim1_truncated_buffer_crashes :
    Chunk.try_from [0, 0, 0, 5, 82, 117, 83, 116] = ParseResult.crash := by
  decide

/-- C2: parsing the serialization of any (well-formed, i.e. byte-valued
and `u32`-lengthed) chunk succeeds and returns a chunk with the same
type bytes, the same data, and the same recomputed CRC. -/
theorem claim2_chunk_roundtrip (c : Chunk) (h : c.wfb = true) :
    ∃ c', Chunk.try_from c.as_bytes = ParseResult.ok c' ∧
      c'.chunk_type.bytes = c.chunk_type.bytes ∧ c'.data = c.data ∧
      c'.crc = c.crc := by
  refine ⟨c, ?_, rfl, rfl, rfl⟩
  have := try_from_as_bytes_append c [] h
  simpa using this

theorem claim2_chunk_roundtrip_witness :
    ∃ c', Chunk.try_from (Chunk.mk rustType [1, 2, 3]).as_bytes
        = ParseResult.ok c' ∧
      c'.chunk_type.bytes = (Chunk.mk rustType [1, 2, 3]).chunk_type.bytes ∧
      c'.data = (Chunk.mk rustType [1, 2, 3]).data ∧
      c'.crc = (Chunk.mk rustType [1, 2, 3]).crc :=
  claim2_chunk_roundtrip (Chunk.mk rustType [1, 2, 3]) (by decide)

/-- C3 counterexample: the test payload string is not 44 bytes long (it
is 42 bytes, as the repository's own `test_new_chunk` asserts). -/
theorem claim3_counterexample :
    (secretMessageBytes.length == 44) = false := by
  decide

/-- C3 amended: the data string is 42 bytes long, a `"RuSt"` chunk over
it has `length()` 42, and 42 is the value written big-endian into the
serialized length field. -/
theorem claim3_length_42 :
    secretMessageBytes.length = 42 ∧
      (Chunk.mk rustType secretMessageBytes).length = 42 ∧
      (Chunk.mk rustType secretMessageBytes).as_bytes.take 4
        = u32ToBeBytes 42 := by
  refine ⟨by decide, by decide, ?_⟩
  rw [Chunk.as_bytes, List.append_assoc, List.append_assoc]
  rw [List.take_left' (length_u32ToBeBytes _)]
  decide

/-- C4: `Chunk::crc` is the CRC-32 (PNG/IEEE polynomial) of the 4 type
bytes followed by the data bytes — the length and CRC fields excluded —
it depends on nothing else (purity/determinism), and it reproduces the
repository's fixed regression value on the `"RuSt"` test vector. -/
theorem claim4_crc_spec (c : Chunk) :
    c.crc = crc32 (c.chunk_type.bytes ++ c.data) ∧
      (∀ c' : Chunk, c'.chunk_type.bytes = c.chunk_type.bytes →
        c'.data = c.data → c'.crc = c.crc) ∧
      (Chunk.mk rustType secretMessageBytes).crc = 2882656334 := by
  refine ⟨rfl, ?_, by decide⟩
  intro c' h1 h2
  simp [Chunk.crc, h1, h2]

theorem claim4_crc_spec_witness :
    (Chunk.mk rustType secretMessageBytes).crc = 2882656334 ∧
      (Chunk.mk rustType [5]).crc = (Chunk.mk rustType [5]).crc :=
  ⟨(claim4_crc_spec (Chunk.mk rustType secretMessageBytes)).2.2,
    (claim4_crc_spec (Chunk.mk rustType [5])).2.1 (Chunk.mk rustType [5])
      rfl rfl⟩

/-- C5 counterexample: the claim promises `CRCMismatch` for EVERY
single-bit flip of a serialized chunk, but flipping bit 7 of byte 0 (the
top bit of the big-endian length field) of an empty `"RuSt"` chunk makes
the declared length 2^31, so the parser's data `drain` goes out of range
and the code panics instead of returning `CRCMismatch`. -/
theorem claim5_counterexample :
    Chunk.try_from (flipBit (Chunk.mk rustType []).as_bytes 0 7)
        = ParseResult.crash ∧
      (decide (Chunk.try_from (flipBit (Chunk.mk rustType []).as_bytes 0 7)
        = ParseResult.err ChunkError.CRCMismatch)) = false := by
  decide

/-- C5 amended: flipping any single bit of a byte at position 4 or later
(the type, data or CRC fields) of a well-formed chunk's serialization
makes `Chunk::try_from` fail with `CRCMismatch`; flips inside the 4-byte
length field are excluded (they re-frame the parse and can panic, as the
counterexample shows). -/
theorem claim5_flip_crcmismatch (c : Chunk) (i j : Nat) (hw : c.wfb = true)
    (hi4 : 4 ≤ i) (hi : i < 12 + c.data.length) (hj : j < 8) :
    Chunk.try_from (flipBit c.as_bytes i j) =
      ParseResult.err ChunkError.CRCMismatch :=
  try_from_flipBit c i j hw hi4 hi hj

theorem claim5_flip_crcmismatch_witness :
    Chunk.try_from (flipBit (Chunk.mk rustType []).as_bytes 5 0) =
      ParseResult.err ChunkError.CRCMismatch :=
  claim5_flip_crcmismatch (Chunk.mk rustType []) 5 0 (by decide) (by decide)
    (by decide) (by decide)

/-- C6: `ChunkType::from_str` fails with the length error when the input
is not exactly 4 bytes, fails with the invalid-character error when it
is 4 bytes but not all ASCII letters, and otherwise succeeds storing
exactly those 4 bytes. -/
theorem claim6_from_str_spec (s : List Nat) :
    (s.length ≠ 4 →
      ChunkType.from_str s = .error (.UnexpectedLength s.length)) ∧
    (s.length = 4 → (s.all isAsciiAlphabetic) = false →
      ChunkType.from_str s = .error .InvalidCharacter) ∧
    (s.length = 4 → (s.all isAsciiAlphabetic) = true →
      ∃ t, ChunkType.from_str s = .ok t ∧ t.bytes = s) := by
  refine ⟨?_, ?_, ?_⟩
  · intro h
    rw [ChunkType.from_str, if_pos h]
  · intro h4 halpha
    rw [ChunkType.from_str, if_neg (by omega), if_pos (by simp [halpha])]
  · intro h4 halpha
    refine ⟨chunkTypeFromBytes s, ?_, bytes_chunkTypeFromBytes h4⟩
    rw [ChunkType.from_str, if_neg (by omega), if_neg (by simp [halpha])]

theorem claim6_from_str_witness :
    (∃ t, ChunkType.from_str [82, 117, 83, 116] = .ok t ∧
        t.bytes = [82, 117, 83, 116]) ∧
      ChunkType.from_str [82, 117] = .error (.UnexpectedLength 2) :=
  ⟨(claim6_from_str_spec [82, 117, 83, 116]).2.2 (by decide) (by decide),
    (claim6_from_str_spec [82, 117]).1 (by decide)⟩

/-- C7: the four chunk-type flags are the bit-5 (value 32) tests of the
respective bytes — clear for critical/public/reserved, SET for
safe-to-copy — `is_valid` means all bytes alphabetic plus the reserved
bit check, and `"RuSt"` is critical, not public, reserved-valid and
safe-to-copy. -/
theorem claim7_chunk_type_bits (t : ChunkType) :
    (t.is_critical = true ↔ t.b0 &&& 32 = 0) ∧
    (t.is_public = true ↔ t.b1 &&& 32 = 0) ∧
    (t.is_reserved_bit_valid = true ↔ t.b2 &&& 32 = 0) ∧
    (t.is_safe_to_copy = true ↔ ¬ (t.b3 &&& 32 = 0)) ∧
    (t.is_valid = true ↔
      ((t.bytes.all isAsciiAlphabetic) = true ∧ t.b2 &&& 32 = 0)) ∧
    (rustType.is_critical = true ∧ rustType.is_public = false ∧
      rustType.is_reserved_bit_valid = true ∧
      rustType.is_safe_to_copy = true) := by
  refine ⟨?_, ?_, ?_, ?_, ?_, by decide⟩ <;>
    simp [ChunkType.is_critical, ChunkType.is_public,
      ChunkType.is_reserved_bit_valid, ChunkType.is_safe_to_copy,
      ChunkType.is_valid, ChunkType.is_bit5_zero]

theorem claim7_chunk_type_bits_witness :
    rustType.is_critical = true ∧ rustType.is_public = false ∧
      rustType.is_reserved_bit_valid = true ∧
      rustType.is_safe_to_copy = true :=
  (claim7_chunk_type_bits rustType).2.2.2.2.2

/-- C8 (spec-modelled: `src/png.rs` is declared in `src/lib.rs` but not
present, so `Png.parse`/`Png.toBytes` are modelled from spec §4.3):
parsing a valid PNG byte buffer, serializing, and re-parsing reproduces
the same container — the chunk sequence and its order exactly. -/
theorem claim8_png_roundtrip (b : List Nat) (p : Png)
    (hb : ∀ x ∈ b, x < 256) (hp : Png.parse b = some p) :
    Png.parse p.toBytes = some p := by
  rw [Png.parse] at hp
  split_ifs at hp with hsig
  cases hcs : Png.parseChunks (b.drop 8) with
  | none =>
    rw [hcs] at hp
    exact Option.noConfusion hp
  | some cs =>
    rw [hcs] at hp
    simp only [Option.map_some', Option.some.injEq] at hp
    have hchunks : p.chunks = cs := by rw [← hp]
    have hwf : ∀ c ∈ cs, c.wfb = true :=
      parseChunks_wfb (fun x hx => hb x (List.mem_of_mem_drop hx)) hcs
    have h1 : (pngSignature ++ (cs.map Chunk.as_bytes).flatten).take 8
        = pngSignature := List.take_left' rfl
    have h2 : (pngSignature ++ (cs.map Chunk.as_bytes).flatten).drop 8
        = (cs.map Chunk.as_bytes).flatten := List.drop_left' rfl
    rw [Png.toBytes, hchunks, Png.parse, h1, if_pos rfl, h2,
      parseChunks_flatten cs hwf, ← hchunks]
    rfl

theorem claim8_png_roundtrip_witness :
    Png.parse demoPng.toBytes = some demoPng := by
  have hwf : ∀ c ∈ demoPng.chunks, c.wfb = true := by decide
  have h1 : (pngSignature ++ (demoPng.chunks.map Chunk.as_bytes).flatten).take 8
      = pngSignature := List.take_left' rfl
  have h2 : (pngSignature ++ (demoPng.chunks.map Chunk.as_bytes).flatten).drop 8
      = (demoPng.chunks.map Chunk.as_bytes).flatten := List.drop_left' rfl
  have hp : Png.parse demoPng.toBytes = some demoPng := by
    rw [Png.toBytes, Png.parse, h1, if_pos rfl, h2,
      parseChunks_flatten demoPng.chunks hwf]
    rfl
  have hb : ∀ x ∈ demoPng.toBytes, x < 256 := by decide
  exact claim8_png_roundtrip demoPng.toBytes demoPng hb hp

/-- C9: the `Display` implementation for `Chunk` unwraps
`data_as_string`, so it panics (`none`) exactly on chunks whose data is
not valid UTF-8; chunks with valid UTF-8 data display their decoded
data. -/
theorem claim9_display_unwrap (c : Chunk) :
    (validUtf8 c.data = false → c.display = none) ∧
      (validUtf8 c.data = true → c.display = some c.data) := by
  constructor
  · intro h
    rw [Chunk.display, Chunk.data_as_string, if_neg (by simp [h])]
  · intro h
    rw [Chunk.display, Chunk.data_as_string, if_pos h]

theorem claim9_display_unwrap_witness :
    (Chunk.mk rustType [255]).display = none ∧
      (Chunk.mk rustType [104, 105]).display = some [104, 105] :=
  ⟨(claim9_display_unwrap (Chunk.mk rustType [255])).1 (by decide),
    (claim9_display_unwrap (Chunk.mk rustType [104, 105])).2 (by decide)⟩

/-- C10: `Chunk::try_from` ignores trailing bytes — parsing a chunk's
serialization with any suffix appended still succeeds and returns the
chunk itself (only the first `12 + length` bytes are consumed). -/
theorem claim10_trailing_ignored (c : Chunk) (s : List Nat)
    (h : c.wfb = true) :
    Chunk.try_from (c.as_bytes ++ s) = ParseResult.ok c :=
  try_from_as_bytes_append c s h

theorem claim10_trailing_ignored_witness :
    Chunk.try_from ((Chunk.mk rustType [1]).as_bytes ++ [9, 9, 9])
      = ParseResult.ok (Chunk.mk rustType [1]) :=
  claim10_trailing_ignored (Chunk.mk rustType [1]) [9, 9, 9] (by decide)

end Hackpng
